import Mathlib

/-!  Verification of the GELF parse-and-classify core (`src/gelf/gelf_reader.rs`).

The Rust source is shallowly embedded:

* `serde_json::Value` becomes the inductive `Value`; JSON numbers keep the
  integer/float distinction of serde_json (`u64`/`i64` vs `f64`), with `f64`
  modelled exactly by rationals.
* `serde_json::Map<String, Value>` becomes an association list `JMap`,
  iterated in entry order; all properties proved about the maps are stated
  through `mapGet` (first-match lookup) or membership, so they are
  independent of the entry order the backing `BTreeMap` would impose.
* The panics of `str::split_at(1)` (empty key, or first character wider than
  one UTF-8 byte) are modelled by `Option`: `to_gelf` returns `none` exactly
  when the Rust function panics.
* `serde_json`'s opaque error type is modelled by the constructors the source
  produces (`missing_field`, `invalid_type`, `invalid_value`) plus a decode
  failure payload.
-/

/-- A JSON number as stored by serde_json: an integer (`u64`/`i64`) or a
floating point value (`f64`, modelled exactly as a rational). -/
inductive JNum where
  | int (n : Int)
  | float (q : Rat)
deriving DecidableEq, Repr

/-- A generic JSON value (`serde_json::Value`). -/
inductive Value where
  | null
  | bool (b : Bool)
  | num (j : JNum)
  | str (s : String)
  | arr (xs : List Value)
  | obj (m : List (String × Value))
deriving Repr

/-- `serde_json::Map<String, Value>`, as an association list in entry order. -/
abbrev JMap := List (String × Value)

/-- `Map::get`: first entry with the given key. -/
def mapGet (k : String) : JMap → Option Value
  | [] => none
  | (k2, v) :: rest => if k2 = k then some v else mapGet k rest

/-- `Value::as_str`: `Some` exactly on JSON strings. -/
def Value.as_str : Value → Option String
  | .str s => some s
  | _ => none

/-- `Value::as_f64`: `Some` exactly on JSON numbers (integers converted). -/
def Value.as_f64 : Value → Option Rat
  | .num (.int n) => some (n : Rat)
  | .num (.float q) => some q
  | _ => none

/-- The numeric value `as_f64` yields for a JSON number. -/
def jnumToRat : JNum → Rat
  | .int n => (n : Rat)
  | .float q => q

/-- The serialization of a JSON string literal.  serde_json additionally
escapes quotes, backslashes and control characters inside `s`; no claim
exercises such contents, and every property proved below uses only the fact
that the output starts with the `"` character. -/
def strLit (s : String) : String := "\"" ++ s ++ "\""

/-- The serialization of an `f64` JSON number.  serde_json uses the ryu
printer, which always emits a `.` (integral floats get a trailing `.0`) or an
exponent; we model the integral case exactly and abbreviate the rest, since
the only property relied on is that the output is never a bare digit. -/
def floatToString (q : Rat) : String :=
  if q.den = 1 then toString q.num ++ ".0"
  else toString q.num ++ "." ++ toString q.den

mutual
/-- `Value::to_string` (the `Display` implementation of `serde_json::Value`):
compact JSON serialization. -/
def toJsonString : Value → String
  | .null => "null"
  | .bool true => "true"
  | .bool false => "false"
  | .num (.int n) => toString n
  | .num (.float q) => floatToString q
  | .str s => strLit s
  | .arr xs => "[" ++ jsonListString xs ++ "]"
  | .obj m => "\x7b" ++ jsonObjString m ++ "\x7d"

/-- Comma-separated serialization of a JSON array body. -/
def jsonListString : List Value → String
  | [] => ""
  | [x] => toJsonString x
  | x :: xs => toJsonString x ++ "," ++ jsonListString xs

/-- Comma-separated serialization of a JSON object body. -/
def jsonObjString : List (String × Value) → String
  | [] => ""
  | [(k, v)] => strLit k ++ ":" ++ toJsonString v
  | (k, v) :: xs => strLit k ++ ":" ++ toJsonString v ++ "," ++ jsonObjString xs
end

/-- The error type the source produces through `serde_json::Error`
constructors. -/
inductive JsonError where
  | missingField (name : String)
  | invalidType (unexpected : String) (expected : String)
  | invalidValue (unexpected : String) (expected : String)
  | decodeFailure (msg : String)
deriving DecidableEq, Repr

/-- `pub enum GelfLevel` with its discriminants `Emergency = 0 … Debug = 7`. -/
inductive GelfLevel where
  | emergency
  | alert
  | critical
  | error
  | warning
  | notice
  | informational
  | debug
deriving DecidableEq, Repr

/-- The integer discriminant of a `GelfLevel`. -/
def levelCode : GelfLevel → Nat
  | .emergency => 0
  | .alert => 1
  | .critical => 2
  | .error => 3
  | .warning => 4
  | .notice => 5
  | .informational => 6
  | .debug => 7

/-- The variant name of a `GelfLevel`, as serde's derived `Serialize` emits
it for a unit enum variant. -/
def levelName : GelfLevel → String
  | .emergency => "Emergency"
  | .alert => "Alert"
  | .critical => "Critical"
  | .error => "Error"
  | .warning => "Warning"
  | .notice => "Notice"
  | .informational => "Informational"
  | .debug => "Debug"

/-- The enumeration member with a given code (codes 0–7). -/
def levelOfCode : Int → GelfLevel
  | 0 => .emergency
  | 1 => .alert
  | 2 => .critical
  | 3 => .error
  | 4 => .warning
  | 5 => .notice
  | 6 => .informational
  | _ => .debug

/-- `impl FromStr for GelfLevel`: only the eight literal digit strings are
accepted. -/
def GelfLevel.from_str (s : String) : Except JsonError GelfLevel :=
  if s = "0" then .ok .emergency
  else if s = "1" then .ok .alert
  else if s = "2" then .ok .critical
  else if s = "3" then .ok .error
  else if s = "4" then .ok .warning
  else if s = "5" then .ok .notice
  else if s = "6" then .ok .informational
  else if s = "7" then .ok .debug
  else .error (.invalidValue "level" "integers from 0 to 7")

/-- `pub struct GelfData`. -/
structure GelfData where
  host : String
  level : GelfLevel
  short_message : String
  timestamp : Rat
  version : String
  meta : JMap
  mechanism_data : JMap
deriving Repr

/-- The `gelf_fields` array in `to_gelf`. -/
def gelf_fields : List String := ["host", "level", "short_message", "timestamp", "version"]

/-- `str::split_at(1)`: split after the first byte.  Panics (modelled as
`none`) when the string is empty or when byte 1 is not a character boundary,
i.e. when the first character occupies more than one UTF-8 byte (code point
not below 128). -/
def splitAt1 (s : String) : Option (String × String) :=
  match s.data with
  | [] => none
  | c :: rest => if c.toNat < 128 then some (⟨[c]⟩, ⟨rest⟩) else none

/-- The key-partition loop of `to_gelf` (`data.iter().for_each`): builds the
`(meta, mechanism_data)` pair, `none` when `split_at(1)` panics on some key. -/
def partitionKeys : JMap → Option (JMap × JMap)
  | [] => some ([], [])
  | (k, v) :: rest =>
    match splitAt1 k with
    | none => none
    | some (c, f) =>
      match partitionKeys rest with
      | none => none
      | some (meta, mech) =>
        if c = "_" then some ((f, v) :: meta, mech)
        else if k ∈ gelf_fields then some (meta, mech)
        else some (meta, (k, v) :: mech)

/-- The `host` extraction in `to_gelf`. -/
def getHost (data : JMap) : Except JsonError String :=
  match mapGet "host" data with
  | none => .error (.missingField "host")
  | some v =>
    match v.as_str with
    | none => .error (.invalidType "host" "string")
    | some s => .ok s

/-- The `level` extraction in `to_gelf`: serialize the value with
`Value::to_string`, then parse with `GelfLevel::from_str`. -/
def getLevel (data : JMap) : Except JsonError GelfLevel :=
  match mapGet "level" data with
  | none => .error (.missingField "level")
  | some v => GelfLevel.from_str (toJsonString v)

/-- The `short_message` extraction in `to_gelf`. -/
def getShortMessage (data : JMap) : Except JsonError String :=
  match mapGet "short_message" data with
  | none => .error (.missingField "short_message")
  | some v =>
    match v.as_str with
    | none => .error (.invalidType "short_message" "string")
    | some s => .ok s

/-- The `timestamp` extraction in `to_gelf` (the source's expected-type text
really is `"u8"`). -/
def getTimestamp (data : JMap) : Except JsonError Rat :=
  match mapGet "timestamp" data with
  | none => .error (.missingField "timestamp")
  | some v =>
    match v.as_f64 with
    | none => .error (.invalidType "timestamp" "u8")
    | some t => .ok t

/-- The `version` extraction in `to_gelf`. -/
def getVersion (data : JMap) : Except JsonError String :=
  match mapGet "version" data with
  | none => .error (.missingField "version")
  | some v =>
    match v.as_str with
    | none => .error (.invalidType "version" "string")
    | some s => .ok s

/-- `fn to_gelf`: partition every key, then extract the five mandatory fields
in the order the struct literal evaluates them (`host`, `level`,
`short_message`, `timestamp`, `version`), short-circuiting on the first
error.  `none` models the partition loop panicking. -/
def to_gelf (data : JMap) : Option (Except JsonError GelfData) :=
  match partitionKeys data with
  | none => none
  | some (meta, mech) =>
    some (
      match getHost data with
      | .error e => .error e
      | .ok host =>
      match getLevel data with
      | .error e => .error e
      | .ok level =>
      match getShortMessage data with
      | .error e => .error e
      | .ok sm =>
      match getTimestamp data with
      | .error e => .error e
      | .ok ts =>
      match getVersion data with
      | .error e => .error e
      | .ok ver => .ok ⟨host, level, sm, ts, ver, meta, mech⟩)

/-- `GelfDataWrapper::from_slice`, with the byte-level JSON parser
(`serde_json::from_slice::<Map<String, Value>>`, library code) abstracted as
a parameter and the classifier abstracted as well, so that "the classifier is
never invoked on decode failure" is expressible. -/
def from_sliceWith (parse : List Nat → Except JsonError JMap)
    (classifier : JMap → Option (Except JsonError GelfData))
    (buf : List Nat) : Option (Except JsonError GelfData) :=
  match parse buf with
  | .error e => some (.error e)
  | .ok m => classifier m

/-- `GelfDataWrapper::from_slice` proper: decode, then classify with
`to_gelf`. -/
def from_slice (parse : List Nat → Except JsonError JMap) (buf : List Nat) :
    Option (Except JsonError GelfData) :=
  from_sliceWith parse to_gelf buf

/-- The object serialized by `GelfDataWrapper::to_string`
(`serde_json::to_string(&self.data)` with the derived `Serialize` of
`GelfData`): the seven struct fields in declaration order, the unit enum
variant of `level` as its name, and `meta` / `mechanism_data` as nested
objects.  (The backing `BTreeMap` would emit map entries sorted by key; only
lookups in the result are used below.) -/
def serializeGelfData (r : GelfData) : JMap :=
  [("host", .str r.host),
   ("level", .str (levelName r.level)),
   ("short_message", .str r.short_message),
   ("timestamp", .num (.float r.timestamp)),
   ("version", .str r.version),
   ("meta", .obj r.meta),
   ("mechanism_data", .obj r.mechanism_data)]

/-- Modelled from the spec: the canonical structurally flattened text form of
a record (spec §6), which is not implemented by the repository's
`GelfDataWrapper::to_string` — the five mandatory fields at top level with
`level` as its integer code, each `meta` entry re-prefixed with `_`, each
`mechanism_data` entry unprefixed. -/
def flatten (r : GelfData) : JMap :=
  ("host", .str r.host) ::
  ("level", .num (.int (levelCode r.level))) ::
  ("short_message", .str r.short_message) ::
  ("timestamp", .num (.float r.timestamp)) ::
  ("version", .str r.version) ::
  (r.meta.map (fun p => ("_" ++ p.1, p.2)) ++ r.mechanism_data)

/-- A key on which `split_at(1)` does not panic: non-empty with a single-byte
(ASCII) first character. -/
def goodKeyB (k : String) : Bool :=
  match k.data with
  | [] => false
  | c :: _ => decide (c.toNat < 128)

/-- The record built from the repository's own unit-test input. -/
def sampleRecord : GelfData :=
  ⟨"example.org", .notice, "A short message", 1582213226, "1.1",
   [("some_info", .str "foo")], []⟩

/-! ### Helper lemmas about `split_at(1)` and key shapes -/

theorem splitAt1_inv (k0 c f : String) (h : splitAt1 k0 = some (c, f)) :
    ∃ ch, k0.data = ch :: f.data ∧ c = (⟨[ch]⟩ : String) ∧ ch.toNat < 128 := by
  unfold splitAt1 at h
  cases hd : k0.data with
  | nil => rw [hd] at h; simp at h
  | cons ch rest =>
    rw [hd] at h
    by_cases hc : ch.toNat < 128
    · simp [hc] at h
      obtain ⟨h1, h2⟩ := h
      subst h2
      exact ⟨ch, rfl, h1.symm, hc⟩
    · simp [hc] at h

theorem splitAt1_underscore (k : String) : splitAt1 ("_" ++ k) = some ("_", k) := by
  have hd : ("_" ++ k).data = '_' :: k.data := by simp [String.data_append]
  simp [splitAt1, hd]

theorem underscore_append_inj (a b : String) (h : ("_" ++ a : String) = "_" ++ b) :
    a = b := by
  have h2 := congrArg String.data h
  simp [String.data_append] at h2
  exact String.ext h2

theorem splitAt1_underscore_iff (k0 f : String) :
    splitAt1 k0 = some ("_", f) ↔ k0 = "_" ++ f := by
  constructor
  · intro h
    obtain ⟨ch, hdata, hc, _⟩ := splitAt1_inv k0 "_" f h
    have hch : ch = '_' := by
      have := congrArg String.data hc
      simpa using this.symm
    subst hch
    apply String.ext
    rw [hdata]
    simp [String.data_append]
  · intro h
    subst h
    exact splitAt1_underscore f

theorem splitAt1_head_ne_underscore (k0 c f : String) (h : splitAt1 k0 = some (c, f))
    (hc : c ≠ "_") : k0.data.head? ≠ some '_' := by
  obtain ⟨ch, hdata, hceq, _⟩ := splitAt1_inv k0 c f h
  rw [hdata]
  simp only [List.head?_cons]
  intro hch
  have hch2 : ch = '_' := Option.some.inj hch
  apply hc
  rw [hceq, hch2]

theorem splitAt1_ne_underscore_of_head (k0 c f : String) (h : splitAt1 k0 = some (c, f))
    (hh : k0.data.head? ≠ some '_') : c ≠ "_" := by
  intro hc
  subst hc
  have := (splitAt1_underscore_iff k0 f).mp h
  subst this
  simp [String.data_append] at hh

theorem splitAt1_of_goodKey (k : String) (h : goodKeyB k = true) :
    ∃ c f, splitAt1 k = some (c, f) := by
  unfold goodKeyB at h
  unfold splitAt1
  cases hd : k.data with
  | nil => rw [hd] at h; simp at h
  | cons ch rest =>
    rw [hd] at h
    simp at h
    exact ⟨⟨[ch]⟩, ⟨rest⟩, by simp [h]⟩

theorem goodKeyB_of_splitAt1 (k c f : String) (h : splitAt1 k = some (c, f)) :
    goodKeyB k = true := by
  obtain ⟨ch, hdata, _, hlt⟩ := splitAt1_inv k c f h
  unfold goodKeyB
  rw [hdata]
  simpa using hlt


/-! ### Helper lemmas about the key partition -/

theorem partitionKeys_cons_step (k0 : String) (v0 : Value) (rest : JMap)
    (c f : String) (mt mc : JMap) (hs : splitAt1 k0 = some (c, f))
    (hr : partitionKeys rest = some (mt, mc)) :
    partitionKeys ((k0, v0) :: rest) =
      (if c = "_" then some ((f, v0) :: mt, mc)
       else if k0 ∈ gelf_fields then some (mt, mc)
       else some (mt, (k0, v0) :: mc)) := by
  simp [partitionKeys, hs, hr]

theorem partitionKeys_isSome (m : JMap) (h : ∀ p ∈ m, goodKeyB p.1 = true) :
    ∃ mm, partitionKeys m = some mm := by
  induction m with
  | nil => exact ⟨([], []), rfl⟩
  | cons p rest ih =>
    obtain ⟨k, v⟩ := p
    obtain ⟨c, f, hs⟩ := splitAt1_of_goodKey k (h (k, v) (List.mem_cons_self _ _))
    obtain ⟨⟨mt, mc⟩, hr⟩ := ih (fun q hq => h q (List.mem_cons_of_mem _ hq))
    rw [partitionKeys_cons_step k v rest c f mt mc hs hr]
    by_cases hc : c = "_"
    · rw [if_pos hc]
      exact ⟨_, rfl⟩
    · rw [if_neg hc]
      by_cases hg : k ∈ gelf_fields
      · rw [if_pos hg]
        exact ⟨_, rfl⟩
      · rw [if_neg hg]
        exact ⟨_, rfl⟩

theorem splitAt1_eq_none (k : String)
    (h : k.data = [] ∨ ∃ c t, k.data = c :: t ∧ 128 ≤ c.toNat) : splitAt1 k = none := by
  unfold splitAt1
  rcases h with h | ⟨c, t, hd, hc⟩
  · rw [h]
  · rw [hd]
    simp [Nat.not_lt.mpr hc]

theorem partitionKeys_none_of_badKey (m : JMap) (k : String) (v : Value)
    (hmem : (k, v) ∈ m) (hbad : splitAt1 k = none) : partitionKeys m = none := by
  induction m with
  | nil => simp at hmem
  | cons p rest ih =>
    obtain ⟨k0, v0⟩ := p
    rcases List.mem_cons.mp hmem with he | hm
    · injection he with h1 h2
      subst h1
      simp [partitionKeys, hbad]
    · cases hs : splitAt1 k0 with
      | none => simp [partitionKeys, hs]
      | some cf =>
        obtain ⟨c, f⟩ := cf
        simp [partitionKeys, hs, ih hm]

theorem partitionKeys_meta_get (m : JMap) (mt mc : JMap)
    (hp : partitionKeys m = some (mt, mc)) (hnd : (m.map Prod.fst).Nodup)
    (k : String) (w : Value) :
    mapGet k mt = some w ↔ ("_" ++ k, w) ∈ m := by
  induction m generalizing mt mc with
  | nil =>
    simp [partitionKeys] at hp
    obtain ⟨h1, h2⟩ := hp
    subst h1
    simp [mapGet]
  | cons p rest ih =>
    obtain ⟨k0, v0⟩ := p
    have hndc : (k0 :: rest.map Prod.fst).Nodup := by simpa using hnd
    have hnd0 : k0 ∉ rest.map Prod.fst := (List.nodup_cons.mp hndc).1
    have hnd' : (rest.map Prod.fst).Nodup := (List.nodup_cons.mp hndc).2
    cases hs : splitAt1 k0 with
    | none => simp [partitionKeys, hs] at hp
    | some cf =>
      obtain ⟨c, f⟩ := cf
      cases hr : partitionKeys rest with
      | none => simp [partitionKeys, hs, hr] at hp
      | some mm =>
        obtain ⟨mt2, mc2⟩ := mm
        rw [partitionKeys_cons_step k0 v0 rest c f mt2 mc2 hs hr] at hp
        by_cases hc : c = "_"
        · subst hc
          simp at hp
          obtain ⟨hmt, hmc⟩ := hp
          subst hmt
          subst hmc
          have hk0 : k0 = "_" ++ f := (splitAt1_underscore_iff k0 f).mp hs
          constructor
          · intro hg
            by_cases hfk : f = k
            · subst hfk
              rw [mapGet, if_pos rfl] at hg
              have hw : v0 = w := Option.some.inj hg
              subst hw
              exact List.mem_cons.mpr (Or.inl (by rw [hk0]))
            · rw [mapGet, if_neg hfk] at hg
              exact List.mem_cons.mpr (Or.inr ((ih mt2 mc2 hr hnd').mp hg))
          · intro hm
            rcases List.mem_cons.mp hm with he | hm2
            · injection he with h1 h2
              have hkf : k = f := underscore_append_inj k f (by rw [h1, hk0])
              subst hkf
              subst h2
              rw [mapGet, if_pos rfl]
            · have hfk : f ≠ k := by
                intro hfk
                subst hfk
                apply hnd0
                rw [hk0]
                exact List.mem_map_of_mem Prod.fst hm2
              rw [mapGet, if_neg hfk]
              exact (ih mt2 mc2 hr hnd').mpr hm2
        · have hmt : mt = mt2 := by
            by_cases hg0 : k0 ∈ gelf_fields <;> simp [hc, hg0] at hp <;>
              exact hp.1.symm
          subst hmt
          constructor
          · intro hg
            exact List.mem_cons.mpr (Or.inr ((ih _ mc2 hr hnd').mp hg))
          · intro hm
            rcases List.mem_cons.mp hm with he | hm2
            · injection he with h1 h2
              have h3 : splitAt1 k0 = some ("_", k) :=
                (splitAt1_underscore_iff k0 k).mpr h1.symm
              rw [hs] at h3
              injection h3 with h4
              injection h4 with h5 h6
              exact absurd h5 hc
            · exact (ih _ mc2 hr hnd').mpr hm2

theorem partitionKeys_mech_get (m : JMap) (mt mc : JMap)
    (hp : partitionKeys m = some (mt, mc)) (hnd : (m.map Prod.fst).Nodup)
    (k : String) (w : Value) :
    mapGet k mc = some w ↔
      ((k, w) ∈ m ∧ k.data.head? ≠ some '_' ∧ k ∉ gelf_fields) := by
  induction m generalizing mt mc with
  | nil =>
    simp [partitionKeys] at hp
    obtain ⟨h1, h2⟩ := hp
    subst h2
    simp [mapGet]
  | cons p rest ih =>
    obtain ⟨k0, v0⟩ := p
    have hndc : (k0 :: rest.map Prod.fst).Nodup := by simpa using hnd
    have hnd0 : k0 ∉ rest.map Prod.fst := (List.nodup_cons.mp hndc).1
    have hnd' : (rest.map Prod.fst).Nodup := (List.nodup_cons.mp hndc).2
    cases hs : splitAt1 k0 with
    | none => simp [partitionKeys, hs] at hp
    | some cf =>
      obtain ⟨c, f⟩ := cf
      cases hr : partitionKeys rest with
      | none => simp [partitionKeys, hs, hr] at hp
      | some mm =>
        obtain ⟨mt2, mc2⟩ := mm
        rw [partitionKeys_cons_step k0 v0 rest c f mt2 mc2 hs hr] at hp
        by_cases hc : c = "_"
        · subst hc
          simp at hp
          obtain ⟨hmt, hmc⟩ := hp
          subst hmc
          have hk0 : k0 = "_" ++ f := (splitAt1_underscore_iff k0 f).mp hs
          constructor
          · intro hg
            obtain ⟨hm1, hm2, hm3⟩ := (ih mt2 _ hr hnd').mp hg
            exact ⟨List.mem_cons.mpr (Or.inr hm1), hm2, hm3⟩
          · rintro ⟨hm, hh, hg⟩
            rcases List.mem_cons.mp hm with he | hm2
            · injection he with h1 h2
              rw [h1, hk0] at hh
              simp [String.data_append] at hh
            · exact (ih mt2 _ hr hnd').mpr ⟨hm2, hh, hg⟩
        · by_cases hg0 : k0 ∈ gelf_fields
          · simp [hc, hg0] at hp
            obtain ⟨hmt, hmc⟩ := hp
            subst hmc
            constructor
            · intro hg
              obtain ⟨hm1, hm2, hm3⟩ := (ih mt2 _ hr hnd').mp hg
              exact ⟨List.mem_cons.mpr (Or.inr hm1), hm2, hm3⟩
            · rintro ⟨hm, hh, hg⟩
              rcases List.mem_cons.mp hm with he | hm2
              · injection he with h1 h2
                rw [h1] at hg
                exact absurd hg0 hg
              · exact (ih mt2 _ hr hnd').mpr ⟨hm2, hh, hg⟩
          · simp [hc, hg0] at hp
            obtain ⟨hmt, hmc⟩ := hp
            subst hmc
            constructor
            · intro hg
              by_cases hkk : k0 = k
              · subst hkk
                rw [mapGet, if_pos rfl] at hg
                have hw : v0 = w := Option.some.inj hg
                subst hw
                exact ⟨List.mem_cons_self _ _,
                  splitAt1_head_ne_underscore k0 c f hs hc, hg0⟩
              · rw [mapGet, if_neg hkk] at hg
                obtain ⟨hm1, hm2, hm3⟩ := (ih mt2 _ hr hnd').mp hg
                exact ⟨List.mem_cons.mpr (Or.inr hm1), hm2, hm3⟩
            · rintro ⟨hm, hh, hg⟩
              rcases List.mem_cons.mp hm with he | hm2
              · injection he with h1 h2
                subst h1
                subst h2
                rw [mapGet, if_pos rfl]
              · have hkk : k0 ≠ k := by
                  intro hkk
                  subst hkk
                  exact hnd0 (List.mem_map_of_mem Prod.fst hm2)
                rw [mapGet, if_neg hkk]
                exact (ih mt2 _ hr hnd').mpr ⟨hm2, hh, hg⟩

/-! ### Helper lemmas about level parsing and the field extractions -/

theorem from_str_int (n : Int) (h0 : 0 ≤ n) (h7 : n ≤ 7) :
    GelfLevel.from_str (toString n) = .ok (levelOfCode n) := by
  interval_cases n <;> rfl

theorem levelCode_levelOfCode (n : Int) (h0 : 0 ≤ n) (h7 : n ≤ 7) :
    (levelCode (levelOfCode n) : Int) = n := by
  interval_cases n <;> rfl

theorem from_str_levelCode (l : GelfLevel) :
    GelfLevel.from_str (toString ((levelCode l : Nat) : Int)) = .ok l := by
  cases l <;> rfl

theorem strLit_ne (s t : String) (c : Char) (hc : t.data = [c]) : strLit s ≠ t := by
  intro h
  have h2 := congrArg String.data h
  rw [hc] at h2
  simp [strLit, String.data_append] at h2

theorem from_str_strLit (s : String) :
    GelfLevel.from_str (strLit s) =
      .error (.invalidValue "level" "integers from 0 to 7") := by
  unfold GelfLevel.from_str
  rw [if_neg (strLit_ne s "0" '0' rfl), if_neg (strLit_ne s "1" '1' rfl),
    if_neg (strLit_ne s "2" '2' rfl), if_neg (strLit_ne s "3" '3' rfl),
    if_neg (strLit_ne s "4" '4' rfl), if_neg (strLit_ne s "5" '5' rfl),
    if_neg (strLit_ne s "6" '6' rfl), if_neg (strLit_ne s "7" '7' rfl)]

theorem getHost_eq_ok (m : JMap) (s : String) (h : mapGet "host" m = some (.str s)) :
    getHost m = .ok s := by
  simp [getHost, h, Value.as_str]

theorem getShortMessage_eq_ok (m : JMap) (s : String)
    (h : mapGet "short_message" m = some (.str s)) : getShortMessage m = .ok s := by
  simp [getShortMessage, h, Value.as_str]

theorem getVersion_eq_ok (m : JMap) (s : String)
    (h : mapGet "version" m = some (.str s)) : getVersion m = .ok s := by
  simp [getVersion, h, Value.as_str]

theorem getTimestamp_eq_ok (m : JMap) (t : JNum)
    (h : mapGet "timestamp" m = some (.num t)) : getTimestamp m = .ok (jnumToRat t) := by
  cases t <;> simp [getTimestamp, h, Value.as_f64, jnumToRat]

theorem getLevel_eq_ok_int (m : JMap) (n : Int) (h0 : 0 ≤ n) (h7 : n ≤ 7)
    (h : mapGet "level" m = some (.num (.int n))) :
    getLevel m = .ok (levelOfCode n) := by
  simp [getLevel, h, toJsonString]
  exact from_str_int n h0 h7

theorem getLevel_eq_err_str (m : JMap) (s : String)
    (h : mapGet "level" m = some (.str s)) :
    getLevel m = .error (.invalidValue "level" "integers from 0 to 7") := by
  simp [getLevel, h, toJsonString]
  exact from_str_strLit s

theorem to_gelf_eq_ok (m : JMap) (mt mc : JMap) (a : String) (l : GelfLevel)
    (s : String) (t : Rat) (ver : String)
    (h0 : partitionKeys m = some (mt, mc)) (hh : getHost m = .ok a)
    (hl : getLevel m = .ok l) (hs : getShortMessage m = .ok s)
    (ht : getTimestamp m = .ok t) (hv : getVersion m = .ok ver) :
    to_gelf m = some (.ok ⟨a, l, s, t, ver, mt, mc⟩) := by
  simp [to_gelf, h0, hh, hl, hs, ht, hv]

theorem to_gelf_eq_err_of_getLevel (m : JMap) (mt mc : JMap) (a : String)
    (e : JsonError) (h0 : partitionKeys m = some (mt, mc))
    (hh : getHost m = .ok a) (hl : getLevel m = .error e) :
    to_gelf m = some (.error e) := by
  simp [to_gelf, h0, hh, hl]

theorem to_gelf_ok_parts (m : JMap) (r : GelfData) (h : to_gelf m = some (.ok r)) :
    partitionKeys m = some (r.meta, r.mechanism_data) ∧ getHost m = .ok r.host ∧
    getLevel m = .ok r.level ∧ getShortMessage m = .ok r.short_message ∧
    getTimestamp m = .ok r.timestamp ∧ getVersion m = .ok r.version := by
  cases h0 : partitionKeys m with
  | none => simp [to_gelf, h0] at h
  | some mm =>
    obtain ⟨mt, mc⟩ := mm
    cases hh : getHost m with
    | error e => simp [to_gelf, h0, hh] at h
    | ok a =>
      cases hl : getLevel m with
      | error e => simp [to_gelf, h0, hh, hl] at h
      | ok l =>
        cases hs : getShortMessage m with
        | error e => simp [to_gelf, h0, hh, hl, hs] at h
        | ok s =>
          cases ht : getTimestamp m with
          | error e => simp [to_gelf, h0, hh, hl, hs, ht] at h
          | ok t =>
            cases hv : getVersion m with
            | error e => simp [to_gelf, h0, hh, hl, hs, ht, hv] at h
            | ok ver =>
              rw [to_gelf_eq_ok m mt mc a l s t ver h0 hh hl hs ht hv] at h
              have h2 : (⟨a, l, s, t, ver, mt, mc⟩ : GelfData) = r :=
                Except.ok.inj (Option.some.inj h)
              rw [← h2]
              exact ⟨rfl, rfl, rfl, rfl, rfl, rfl⟩

/-! ### Helper lemmas for the flattened canonical form -/

theorem partitionKeys_skip_field (k0 : String) (v0 : Value) (rest : JMap)
    (mt mc : JMap) (c f : String) (hs : splitAt1 k0 = some (c, f)) (hc : c ≠ "_")
    (hg : k0 ∈ gelf_fields) (hr : partitionKeys rest = some (mt, mc)) :
    partitionKeys ((k0, v0) :: rest) = some (mt, mc) := by
  rw [partitionKeys_cons_step k0 v0 rest c f mt mc hs hr, if_neg hc, if_pos hg]

theorem partitionKeys_mech_all (l : JMap)
    (h : ∀ p ∈ l, goodKeyB p.1 = true ∧ p.1.data.head? ≠ some '_' ∧
      p.1 ∉ gelf_fields) :
    partitionKeys l = some ([], l) := by
  induction l with
  | nil => rfl
  | cons p rest ih =>
    obtain ⟨k, v⟩ := p
    obtain ⟨hgood, hhead, hfields⟩ := h (k, v) (List.mem_cons_self _ _)
    obtain ⟨c, f, hs⟩ := splitAt1_of_goodKey k hgood
    have hc : c ≠ "_" := splitAt1_ne_underscore_of_head k c f hs hhead
    have hr := ih (fun q hq => h q (List.mem_cons_of_mem _ hq))
    rw [partitionKeys_cons_step k v rest c f [] rest hs hr, if_neg hc,
      if_neg hfields]

theorem partitionKeys_meta_prefix (meta tail : JMap) (mt mc : JMap)
    (h : partitionKeys tail = some (mt, mc)) :
    partitionKeys (meta.map (fun p => ("_" ++ p.1, p.2)) ++ tail) =
      some (meta ++ mt, mc) := by
  induction meta with
  | nil => simpa using h
  | cons p rest ih =>
    obtain ⟨k, v⟩ := p
    have hstep := partitionKeys_cons_step ("_" ++ k) v
      (rest.map (fun p => ("_" ++ p.1, p.2)) ++ tail) "_" k (rest ++ mt) mc
      (splitAt1_underscore k) ih
    rw [if_pos rfl] at hstep
    simpa using hstep

theorem partitionKeys_flatten (r : GelfData)
    (h : ∀ p ∈ r.mechanism_data, goodKeyB p.1 = true ∧
      p.1.data.head? ≠ some '_' ∧ p.1 ∉ gelf_fields) :
    partitionKeys (flatten r) = some (r.meta, r.mechanism_data) := by
  have h1 : partitionKeys r.mechanism_data = some ([], r.mechanism_data) :=
    partitionKeys_mech_all _ h
  have h2 := partitionKeys_meta_prefix r.meta r.mechanism_data [] r.mechanism_data h1
  rw [List.append_nil] at h2
  have h3 := partitionKeys_skip_field "version" (.str r.version) _ _ _ "v" "ersion"
    rfl (by decide) (by simp [gelf_fields]) h2
  have h4 := partitionKeys_skip_field "timestamp" (.num (.float r.timestamp)) _ _ _
    "t" "imestamp" rfl (by decide) (by simp [gelf_fields]) h3
  have h5 := partitionKeys_skip_field "short_message" (.str r.short_message) _ _ _
    "s" "hort_message" rfl (by decide) (by simp [gelf_fields]) h4
  have h6 := partitionKeys_skip_field "level" (.num (.int (levelCode r.level))) _ _ _
    "l" "evel" rfl (by decide) (by simp [gelf_fields]) h5
  have h7 := partitionKeys_skip_field "host" (.str r.host) _ _ _
    "h" "ost" rfl (by decide) (by simp [gelf_fields]) h6
  exact h7

/-! ### Error-propagation lemmas for `to_gelf` -/

theorem to_gelf_err_host (m : JMap) (mt mc : JMap) (e : JsonError)
    (h0 : partitionKeys m = some (mt, mc)) (hh : getHost m = .error e) :
    to_gelf m = some (.error e) := by
  simp [to_gelf, h0, hh]

theorem to_gelf_err_sm (m : JMap) (mt mc : JMap) (a : String) (l : GelfLevel)
    (e : JsonError) (h0 : partitionKeys m = some (mt, mc))
    (hh : getHost m = .ok a) (hl : getLevel m = .ok l)
    (hs : getShortMessage m = .error e) : to_gelf m = some (.error e) := by
  simp [to_gelf, h0, hh, hl, hs]

theorem to_gelf_err_ts (m : JMap) (mt mc : JMap) (a : String) (l : GelfLevel)
    (s : String) (e : JsonError) (h0 : partitionKeys m = some (mt, mc))
    (hh : getHost m = .ok a) (hl : getLevel m = .ok l)
    (hs : getShortMessage m = .ok s) (ht : getTimestamp m = .error e) :
    to_gelf m = some (.error e) := by
  simp [to_gelf, h0, hh, hl, hs, ht]

theorem to_gelf_err_ver (m : JMap) (mt mc : JMap) (a : String) (l : GelfLevel)
    (s : String) (t : Rat) (e : JsonError) (h0 : partitionKeys m = some (mt, mc))
    (hh : getHost m = .ok a) (hl : getLevel m = .ok l)
    (hs : getShortMessage m = .ok s) (ht : getTimestamp m = .ok t)
    (hv : getVersion m = .error e) : to_gelf m = some (.error e) := by
  simp [to_gelf, h0, hh, hl, hs, ht, hv]

/-! ### Claim C1 -/

/-- C1 counterexample: an object with all five mandatory fields well-formed
but an additional empty-string key makes the key partition panic
(`split_at(1)` with index 1 out of bounds), so classification does not
succeed as the claim states for every input JSON object. -/
theorem mandatory_fields_panic_cex :
    to_gelf [("host", .str "a"), ("level", .num (.int 3)),
      ("short_message", .str "m"), ("timestamp", .num (.float 1)),
      ("version", .str "1.1"), ("", .null)] = none := rfl

/-- C1 (amended): for every input whose keys are all classifiable (non-empty
with a single-byte first character, the key-shape precondition of C10) and
whose five mandatory fields are well-formed — `host`, `short_message`,
`version` JSON text, `timestamp` a JSON number, `level` a JSON integer in
0..7 — classification succeeds and the returned record's mandatory fields
equal the input values exactly, with `level` mapped to the enumeration
member with the matching code. -/
theorem to_gelf_mandatory_fields_preserved (m : JMap) (a sm ver : String)
    (t : JNum) (n : Int) (hgood : ∀ p ∈ m, goodKeyB p.1 = true)
    (hh : mapGet "host" m = some (.str a))
    (hsm : mapGet "short_message" m = some (.str sm))
    (hv : mapGet "version" m = some (.str ver))
    (ht : mapGet "timestamp" m = some (.num t))
    (hl : mapGet "level" m = some (.num (.int n)))
    (h0 : 0 ≤ n) (h7 : n ≤ 7) :
    ∃ r : GelfData, to_gelf m = some (.ok r) ∧ r.host = a ∧
      r.short_message = sm ∧ r.version = ver ∧ r.timestamp = jnumToRat t ∧
      (levelCode r.level : Int) = n := by
  obtain ⟨⟨mt, mc⟩, hp⟩ := partitionKeys_isSome m hgood
  refine ⟨⟨a, levelOfCode n, sm, jnumToRat t, ver, mt, mc⟩, ?_, rfl, rfl, rfl,
    rfl, ?_⟩
  · exact to_gelf_eq_ok m mt mc a (levelOfCode n) sm (jnumToRat t) ver hp
      (getHost_eq_ok m a hh) (getLevel_eq_ok_int m n h0 h7 hl)
      (getShortMessage_eq_ok m sm hsm) (getTimestamp_eq_ok m t ht)
      (getVersion_eq_ok m ver hv)
  · exact levelCode_levelOfCode n h0 h7

/-- Witness for C1 at the repository's own unit-test input. -/
theorem to_gelf_mandatory_fields_preserved_witness :
    ∃ r : GelfData,
      to_gelf [("host", .str "example.org"), ("level", .num (.int 5)),
        ("short_message", .str "A short message"),
        ("timestamp", .num (.int 1582213226)), ("version", .str "1.1"),
        ("_some_info", .str "foo")] = some (.ok r) ∧
      r.host = "example.org" ∧ r.short_message = "A short message" ∧
      r.version = "1.1" ∧ r.timestamp = jnumToRat (.int 1582213226) ∧
      (levelCode r.level : Int) = 5 :=
  to_gelf_mandatory_fields_preserved _ _ _ _ (.int 1582213226) 5 (by decide)
    rfl rfl rfl rfl rfl (by decide) (by decide)

/-! ### Claim C2 -/

/-- C2 counterexample: with input keys `_host`, `_abc` and `abc` alongside
well-formed mandatory fields, the mandatory name `host` appears as a key of
`meta` (from `_host`), and the stripped key `abc` (from `_abc`) also appears
as a key of `mechanism_data` (from the separate input key `abc`) — refuting
both "the stripped key does not appear in mechanism_data" and "the five
mandatory field names never appear as keys of meta". -/
theorem partition_claim_cex :
    (to_gelf [("host", .str "y"), ("level", .num (.int 3)),
        ("short_message", .str "m"), ("timestamp", .num (.int 1)),
        ("version", .str "1.1"), ("_host", .str "x"),
        ("_abc", .num (.int 1)), ("abc", .num (.int 2))]).map
      (Except.map fun r =>
        (mapGet "host" r.meta, mapGet "abc" r.mechanism_data)) =
      some (.ok (some (.str "x"), some (.num (.int 2)))) := rfl

/-- C2 (amended): on every successful classification of an input with
distinct keys, `meta` holds exactly the `_`-stripped input entries and
`mechanism_data` exactly the non-underscored non-mandatory input entries,
each with the identical value.  Consequently no mandatory name is ever a key
of `mechanism_data`; but a mandatory name appears in `meta` exactly when the
input contains its `_`-prefixed twin, and a stripped meta key may coincide
with a `mechanism_data` key when the input separately contains the
unprefixed key. -/
theorem to_gelf_partition_routes (m : JMap) (r : GelfData)
    (h : to_gelf m = some (.ok r)) (hnd : (m.map Prod.fst).Nodup) :
    (∀ k w, mapGet k r.meta = some w ↔ ("_" ++ k, w) ∈ m) ∧
    (∀ k w, mapGet k r.mechanism_data = some w ↔
      ((k, w) ∈ m ∧ k.data.head? ≠ some '_' ∧ k ∉ gelf_fields)) ∧
    (∀ f, f ∈ gelf_fields → mapGet f r.mechanism_data = none) := by
  have hp := (to_gelf_ok_parts m r h).1
  refine ⟨partitionKeys_meta_get m _ _ hp hnd,
    partitionKeys_mech_get m _ _ hp hnd, ?_⟩
  intro f hf
  cases hg : mapGet f r.mechanism_data with
  | none => rfl
  | some w =>
    obtain ⟨-, -, hnotin⟩ := (partitionKeys_mech_get m _ _ hp hnd f w).mp hg
    exact absurd hf hnotin

/-- Witness for C2 at the repository's own unit-test input. -/
theorem to_gelf_partition_routes_witness :
    mapGet "some_info" sampleRecord.meta = some (.str "foo") ∧
    mapGet "host" sampleRecord.mechanism_data = none := by
  have h := to_gelf_partition_routes
    [("host", .str "example.org"), ("level", .num (.int 5)),
     ("short_message", .str "A short message"),
     ("timestamp", .num (.int 1582213226)), ("version", .str "1.1"),
     ("_some_info", .str "foo")] sampleRecord rfl (by decide)
  refine ⟨(h.1 "some_info" (.str "foo")).mpr ?_, h.2.2 "host" (by decide)⟩
  show ("_" ++ "some_info", Value.str "foo") ∈ _
  have he : ("_" ++ "some_info" : String) = "_some_info" := rfl
  rw [he]
  exact List.mem_cons_of_mem _ (List.mem_cons_of_mem _ (List.mem_cons_of_mem _
    (List.mem_cons_of_mem _ (List.mem_cons_of_mem _ (List.mem_cons_self _ _)))))

/-! ### Claim C3 -/

/-- C3: an input containing both `_host : x` and `host : y` (with the other
mandatory fields well-formed) classifies successfully with the record's
`host` attribute equal to `y` and `meta["host"]` equal to `x`: the
underscore-prefixed key is routed to `meta` and never confused with the
top-level mandatory field. -/
theorem underscore_host_precedence (x y sm ver : String) (t : JNum) (n : Int)
    (h0 : 0 ≤ n) (h7 : n ≤ 7) :
    ∃ r : GelfData,
      to_gelf [("host", .str y), ("level", .num (.int n)),
        ("short_message", .str sm), ("timestamp", .num t),
        ("version", .str ver), ("_host", .str x)] = some (.ok r) ∧
      r.host = y ∧ mapGet "host" r.meta = some (.str x) := by
  refine ⟨⟨y, levelOfCode n, sm, jnumToRat t, ver, [("host", .str x)], []⟩,
    ?_, rfl, rfl⟩
  exact to_gelf_eq_ok _ [("host", .str x)] [] y (levelOfCode n) sm
    (jnumToRat t) ver rfl (getHost_eq_ok _ y rfl)
    (getLevel_eq_ok_int _ n h0 h7 rfl) (getShortMessage_eq_ok _ sm rfl)
    (getTimestamp_eq_ok _ t rfl) (getVersion_eq_ok _ ver rfl)

/-- Witness for C3 at concrete values. -/
theorem underscore_host_precedence_witness :
    ∃ r : GelfData,
      to_gelf [("host", .str "y"), ("level", .num (.int 3)),
        ("short_message", .str "m"), ("timestamp", .num (.int 1)),
        ("version", .str "1.1"), ("_host", .str "x")] = some (.ok r) ∧
      r.host = "y" ∧ mapGet "host" r.meta = some (.str "x") :=
  underscore_host_precedence "x" "y" "m" "1.1" (.int 1) 3 (by decide) (by decide)

/-! ### Claim C4 -/

/-- C4 counterexample: a well-formed input whose `level` field is the JSON
string `"5"` is rejected with `InvalidValue("level")` — `Value::to_string`
wraps strings in quotes, so `GelfLevel::from_str` receives the three-character
token `"5"` (with quotes), not the digit — refuting the claim that a
numeric-string level is accepted. -/
theorem level_string_digit_cex :
    to_gelf [("host", .str "a"), ("level", .str "5"),
      ("short_message", .str "m"), ("timestamp", .num (.int 1)),
      ("version", .str "1.1")] =
      some (.error (.invalidValue "level" "integers from 0 to 7")) := rfl

/-- C4 (amended): whenever the `level` field holds any JSON string — the
numeric strings "0" through "7" included — classification fails with
`InvalidValue("level")`; only values whose JSON serialization is a bare digit
0–7 (i.e. JSON integers 0 through 7) are accepted. -/
theorem level_string_rejected (a s sm ver : String) (t : JNum) :
    to_gelf [("host", .str a), ("level", .str s), ("short_message", .str sm),
      ("timestamp", .num t), ("version", .str ver)] =
      some (.error (.invalidValue "level" "integers from 0 to 7")) :=
  to_gelf_eq_err_of_getLevel _ [] [] a _ rfl (getHost_eq_ok _ a rfl)
    (getLevel_eq_err_str _ s rfl)

/-! ### Claim C5 -/

/-- C5 counterexample: for the repository's own test record, the object
serialized by `to_string` carries `level` as the variant name `"Notice"`
(not the integer code 5), has no top-level `_some_info` key (it stays nested
under `meta`), and differs from the flattened canonical form. -/
theorem to_string_not_flattened_cex :
    mapGet "level" (serializeGelfData sampleRecord) = some (.str "Notice") ∧
    mapGet "_some_info" (serializeGelfData sampleRecord) = none ∧
    mapGet "meta" (serializeGelfData sampleRecord) =
      some (.obj [("some_info", .str "foo")]) ∧
    serializeGelfData sampleRecord ≠ flatten sampleRecord := by
  refine ⟨rfl, rfl, rfl, ?_⟩
  intro h
  have h2 := congrArg (mapGet "level") h
  rw [show mapGet "level" (serializeGelfData sampleRecord) =
        some (.str "Notice") from rfl,
      show mapGet "level" (flatten sampleRecord) =
        some (.num (.int 5)) from rfl] at h2
  exact Value.noConfusion (Option.some.inj h2)

/-- C5 (amended): the object `to_string` serializes is the nested one — the
five mandatory fields at top level with `level` as its enumeration variant
NAME, plus `meta` and `mechanism_data` as nested objects under their own
keys; no other top-level key (in particular no `_`-re-prefixed meta entry)
exists. -/
theorem to_string_nested_shape (r : GelfData) :
    mapGet "host" (serializeGelfData r) = some (.str r.host) ∧
    mapGet "level" (serializeGelfData r) = some (.str (levelName r.level)) ∧
    mapGet "short_message" (serializeGelfData r) = some (.str r.short_message) ∧
    mapGet "timestamp" (serializeGelfData r) = some (.num (.float r.timestamp)) ∧
    mapGet "version" (serializeGelfData r) = some (.str r.version) ∧
    mapGet "meta" (serializeGelfData r) = some (.obj r.meta) ∧
    mapGet "mechanism_data" (serializeGelfData r) =
      some (.obj r.mechanism_data) ∧
    (∀ k, k ∉ ["host", "level", "short_message", "timestamp", "version",
      "meta", "mechanism_data"] → mapGet k (serializeGelfData r) = none) := by
  refine ⟨rfl, rfl, rfl, rfl, rfl, rfl, rfl, ?_⟩
  intro k hk
  simp at hk
  obtain ⟨h1, h2, h3, h4, h5, h6, h7⟩ := hk
  have e1 : ("host" : String) ≠ k := fun h => h1 h.symm
  have e2 : ("level" : String) ≠ k := fun h => h2 h.symm
  have e3 : ("short_message" : String) ≠ k := fun h => h3 h.symm
  have e4 : ("timestamp" : String) ≠ k := fun h => h4 h.symm
  have e5 : ("version" : String) ≠ k := fun h => h5 h.symm
  have e6 : ("meta" : String) ≠ k := fun h => h6 h.symm
  have e7 : ("mechanism_data" : String) ≠ k := fun h => h7 h.symm
  simp [serializeGelfData, mapGet, e1, e2, e3, e4, e5, e6, e7]

/-- Witness for C5: the no-other-top-level-keys clause at the test record and
the key `_some_info`. -/
theorem to_string_nested_shape_witness :
    mapGet "level" (serializeGelfData sampleRecord) =
      some (.str (levelName GelfLevel.notice)) ∧
    mapGet "_some_info" (serializeGelfData sampleRecord) = none :=
  ⟨(to_string_nested_shape sampleRecord).2.1,
    (to_string_nested_shape sampleRecord).2.2.2.2.2.2.2 "_some_info" (by decide)⟩

/-! ### Claim C6 -/

/-- C6 counterexample: re-classifying the record's ACTUAL canonical text form
(the object `to_string` serializes, which is nested) does not succeed: the
`level` entry is the variant name string `"Notice"`, whose serialization is
not a digit, so the round trip fails with `InvalidValue("level")` instead of
yielding an identical record. -/
theorem reclassify_to_string_cex :
    to_gelf (serializeGelfData sampleRecord) =
      some (.error (.invalidValue "level" "integers from 0 to 7")) := rfl

/-- C6 (amended): the round-trip law holds for the spec's canonical
structurally flattened form (`flatten`), not for the code's `to_string`: for
every record whose `mechanism_data` keys are classifiable, non-underscored
and non-mandatory (invariants of every record `to_gelf` produces),
re-classifying the flattened form succeeds and returns the identical record
— host, level, short_message, timestamp, version, meta and mechanism_data
all preserved, modulo re-adding the `_` prefix to meta keys on
serialization. -/
theorem flatten_roundtrip (r : GelfData)
    (h : ∀ p ∈ r.mechanism_data, goodKeyB p.1 = true ∧
      p.1.data.head? ≠ some '_' ∧ p.1 ∉ gelf_fields) :
    to_gelf (flatten r) = some (.ok r) := by
  have h0 := partitionKeys_flatten r h
  have hh : getHost (flatten r) = .ok r.host := rfl
  have hl : getLevel (flatten r) = .ok r.level := by
    have hml : mapGet "level" (flatten r) =
      some (.num (.int (levelCode r.level))) := rfl
    simp [getLevel, hml, toJsonString]
    exact from_str_levelCode r.level
  have hsm : getShortMessage (flatten r) = .ok r.short_message := rfl
  have ht : getTimestamp (flatten r) = .ok r.timestamp := rfl
  have hv : getVersion (flatten r) = .ok r.version := rfl
  exact to_gelf_eq_ok (flatten r) r.meta r.mechanism_data r.host r.level
    r.short_message r.timestamp r.version h0 hh hl hsm ht hv

/-- Witness for C6 at the repository's own unit-test record. -/
theorem flatten_roundtrip_witness :
    to_gelf (flatten sampleRecord) = some (.ok sampleRecord) :=
  flatten_roundtrip sampleRecord (by decide)

/-! ### Claim C7 -/

/-- C7: if decoding the input bytes as a JSON object fails, processing the
submission returns the decode error immediately, and the classifier is never
invoked for that input: the pipeline's result is independent of the
classifier function. -/
theorem from_slice_decode_short_circuits
    (parse : List Nat → Except JsonError JMap) (buf : List Nat) (e : JsonError)
    (hf : parse buf = .error e) :
    from_slice parse buf = some (.error e) ∧
    ∀ classifier, from_sliceWith parse classifier buf = some (.error e) := by
  constructor
  · simp [from_slice, from_sliceWith, hf]
  · intro classifier
    simp [from_sliceWith, hf]

/-- Witness for C7 at a concrete failing parser and buffer. -/
theorem from_slice_decode_short_circuits_witness :
    from_slice (fun _ => .error (.decodeFailure "bad json")) [0] =
      some (.error (.decodeFailure "bad json")) :=
  (from_slice_decode_short_circuits
    (fun _ => .error (.decodeFailure "bad json")) [0]
    (.decodeFailure "bad json") rfl).1

/-! ### Claim C8 -/

/-- C8 counterexample: on the empty object every mandatory field is absent,
yet the single returned error names only `host` (the first field validated);
the absence of `version` does not cause an error naming `version`, refuting
the distributive reading "every absent mandatory field causes a MissingField
error naming that field". -/
theorem missing_field_order_cex :
    mapGet "version" ([] : JMap) = none ∧
    to_gelf ([] : JMap) = some (.error (.missingField "host")) ∧
    to_gelf ([] : JMap) ≠ some (.error (.missingField "version")) := by
  refine ⟨rfl, rfl, ?_⟩
  intro h
  rw [show to_gelf ([] : JMap) = some (.error (.missingField "host")) from rfl]
    at h
  have h2 := JsonError.missingField.inj (Except.error.inj (Option.some.inj h))
  exact absurd h2 (by decide)

/-- C8 (amended): the concrete scenario holds — the input with `host`,
`level`, `short_message`, `timestamp` well-formed and no `version` fails with
`MissingField("version")`; in general a missing mandatory field is reported
by a `MissingField` error naming it provided the input's keys are
classifiable and every field before it in the fixed validation order
(`host`, `level`, `short_message`, `timestamp`, `version`) extracts
successfully — validation surfaces only the first failure. -/
theorem missing_field_reported :
    (to_gelf [("host", .str "a"), ("level", .num (.int 3)),
        ("short_message", .str "m"), ("timestamp", .num (.float 1))] =
      some (.error (.missingField "version"))) ∧
    (∀ m : JMap, (∀ p ∈ m, goodKeyB p.1 = true) → mapGet "host" m = none →
      to_gelf m = some (.error (.missingField "host"))) ∧
    (∀ m : JMap, (∀ p ∈ m, goodKeyB p.1 = true) → (∃ a, getHost m = .ok a) →
      mapGet "level" m = none →
      to_gelf m = some (.error (.missingField "level"))) ∧
    (∀ m : JMap, (∀ p ∈ m, goodKeyB p.1 = true) → (∃ a, getHost m = .ok a) →
      (∃ l, getLevel m = .ok l) → mapGet "short_message" m = none →
      to_gelf m = some (.error (.missingField "short_message"))) ∧
    (∀ m : JMap, (∀ p ∈ m, goodKeyB p.1 = true) → (∃ a, getHost m = .ok a) →
      (∃ l, getLevel m = .ok l) → (∃ s, getShortMessage m = .ok s) →
      mapGet "timestamp" m = none →
      to_gelf m = some (.error (.missingField "timestamp"))) ∧
    (∀ m : JMap, (∀ p ∈ m, goodKeyB p.1 = true) → (∃ a, getHost m = .ok a) →
      (∃ l, getLevel m = .ok l) → (∃ s, getShortMessage m = .ok s) →
      (∃ t, getTimestamp m = .ok t) → mapGet "version" m = none →
      to_gelf m = some (.error (.missingField "version"))) := by
  refine ⟨rfl, ?_, ?_, ?_, ?_, ?_⟩
  · intro m hgood hm
    obtain ⟨⟨mt, mc⟩, h0⟩ := partitionKeys_isSome m hgood
    exact to_gelf_err_host m mt mc _ h0 (by simp [getHost, hm])
  · rintro m hgood ⟨a, ha⟩ hm
    obtain ⟨⟨mt, mc⟩, h0⟩ := partitionKeys_isSome m hgood
    exact to_gelf_eq_err_of_getLevel m mt mc a _ h0 ha (by simp [getLevel, hm])
  · rintro m hgood ⟨a, ha⟩ ⟨l, hl⟩ hm
    obtain ⟨⟨mt, mc⟩, h0⟩ := partitionKeys_isSome m hgood
    exact to_gelf_err_sm m mt mc a l _ h0 ha hl (by simp [getShortMessage, hm])
  · rintro m hgood ⟨a, ha⟩ ⟨l, hl⟩ ⟨s, hsm⟩ hm
    obtain ⟨⟨mt, mc⟩, h0⟩ := partitionKeys_isSome m hgood
    exact to_gelf_err_ts m mt mc a l s _ h0 ha hl hsm (by simp [getTimestamp, hm])
  · rintro m hgood ⟨a, ha⟩ ⟨l, hl⟩ ⟨s, hsm⟩ ⟨t, ht⟩ hm
    obtain ⟨⟨mt, mc⟩, h0⟩ := partitionKeys_isSome m hgood
    exact to_gelf_err_ver m mt mc a l s t _ h0 ha hl hsm ht
      (by simp [getVersion, hm])

/-- Witness for C8: the missing-`host` clause applied at a concrete input. -/
theorem missing_field_reported_witness :
    to_gelf [("level", .num (.int 3))] = some (.error (.missingField "host")) :=
  missing_field_reported.2.1 [("level", .num (.int 3))] (by decide) rfl

/-! ### Claim C10 -/

/-- C10: classification is total only under a key-shape precondition — for an
input object containing a key that is the empty string, or a key whose first
character occupies more than one UTF-8 byte, the key partition
(`split_at(1)`) panics instead of returning a `Result`: `to_gelf` never
returns normally or with a typed error on such inputs (in the embedding it
returns `none`, the panic value). -/
theorem to_gelf_bad_key_panics (m : JMap) (k : String) (v : Value)
    (hmem : (k, v) ∈ m)
    (hbad : k.data = [] ∨ ∃ c t, k.data = c :: t ∧ 128 ≤ c.toNat) :
    to_gelf m = none := by
  have h := partitionKeys_none_of_badKey m k v hmem (splitAt1_eq_none k hbad)
  simp [to_gelf, h]

/-- Witness for C10 at the concrete input holding an empty-string key. -/
theorem to_gelf_bad_key_panics_witness :
    to_gelf [("host", .str "a"), ("", .null)] = none :=
  to_gelf_bad_key_panics [("host", .str "a"), ("", .null)] "" .null
    (List.mem_cons_of_mem _ (List.mem_cons_self _ _)) (Or.inl rfl)
